import Mathlib

/-!
Verification of the line-stream shuffler in `pipeline/common/datasets.py`:
the functions `shuffle_with_max_lines` (bounded-memory reservoir-style
shuffle) and `shuffle_in_temp_files` (external chunk-and-bucket shuffle).

The Python code is shallowly embedded: line streams become `List String`,
the seeded pseudo-random generator (`random.Random(seed)`) becomes an
abstract deterministic state machine `RngOps`, machine reals (`float`)
become `ℚ`, and the chunk-file side effects become explicit lists of chunk
contents.  Divisions that would raise `ZeroDivisionError` in Python are
totalized by `ℚ`'s `x / 0 = 0` convention; no claim below depends on such
an input.
-/

/-- Modelled from the spec: the seeded pseudo-random generator
(`random.Random`) is external library code, not part of this repository.
It is modelled as an abstract deterministic state machine: `seedFn`
derives the initial state from the seed string (`Random(seed)`),
`randBelow s n` draws an integer used to pick an index below `n`
(`Random._randbelow(n)`, used by `random.shuffle`), and `randFloat` draws
a value in `[0, 1)` (`random.random()`), modelled as a rational.
All theorems quantify over an arbitrary such machine unless they evaluate
a concrete run. -/
structure RngOps (σ : Type) where
  seedFn : String → σ
  randBelow : σ → Nat → Nat × σ
  randFloat : σ → ℚ × σ

/-- A trivial concrete generator instance, used to evaluate the
algorithms on explicit inputs: every index draw is `0` and every float
draw is `0`.  The properties checked on concrete runs (lengths, byte
sizes, multisets, return values) are invariant under the choice of
generator. -/
def zeroRng : RngOps Unit where
  seedFn _ := ()
  randBelow s _ := (0, s)
  randFloat s := (0, s)

/-- UTF-8 byte length of a string, `len(line.encode("utf-8"))`: the sum
of the UTF-8 sizes of its characters. -/
def utf8Len (s : String) : Nat := (s.toList.map Char.utf8Size).sum

/-- Total byte size of a list of stored lines (a chunk file's size, or a
bucket's `bytes_in_bucket` total). -/
def byteSize (c : List String) : Nat := (c.map utf8Len).sum

/-- Modelled from the spec: Python's `str.split()` with no separator
(used by `line.split()` in `shuffle_with_max_lines`) is library code.
It splits on runs of whitespace and drops empty pieces; this helper
accumulates the current (reversed) word and emits it at each whitespace
run boundary. -/
def wsWords : List Char → List Char → List (List Char)
  | [], [] => []
  | [], cur => [cur.reverse]
  | c :: rest, cur =>
      if c.isWhitespace then
        match cur with
        | [] => wsWords rest []
        | _ => cur.reverse :: wsWords rest []
      else wsWords rest (c :: cur)

/-- `len(line.split())`: the whitespace-delimited word count of a line. -/
def pyWordCount (line : String) : Nat := (wsWords line.toList []).length

/-- One step of `random.shuffle`'s Fisher-Yates loop: exchange the
elements at positions `i` and `j` (`x[i], x[j] = x[j], x[i]`).  Out of
range indices leave the list unchanged (never reached on the call sites
below). -/
def listSwap (l : List α) (i j : Nat) : List α :=
  match l[i]?, l[j]? with
  | some a, some b => (l.set i b).set j a
  | _, _ => l

/-- Modelled from the spec: `random.shuffle` is external library code; it
runs Fisher-Yates, `for i in reversed(range(1, len(x))): j = randbelow(i+1);
swap x[i] x[j]`.  `fyAux R n` performs the iterations with `i = n` down to
`i = 1`; the drawn value is reduced mod `i + 1` so any generator yields an
in-range index (`_randbelow` always returns one). -/
def fyAux (R : RngOps σ) : Nat → List α → σ → List α × σ
  | 0, l, s => (l, s)
  | i + 1, l, s =>
      let rs := R.randBelow s (i + 2)
      fyAux R i (listSwap l (i + 1) (rs.1 % (i + 2))) rs.2

/-- `random.shuffle(x)`: Fisher-Yates over the whole list. -/
def pyShuffle (R : RngOps σ) (s : σ) (l : List α) : List α × σ :=
  fyAux R (l.length - 1) l s

/-- Phase A of `shuffle_with_max_lines` (datasets.py lines 81-93): fill the
reservoir up to `max_lines`, measuring total bytes, skipping lines whose
word count exceeds `max_words_in_sentence`.  Returns the reservoir, the
byte total and the unconsumed remainder of the stream (the iterator
position after the `break`). -/
def phaseA (maxLines maxWords : Nat) : List String → List String → Nat → List String × Nat × List String
  | [], acc, totalBytes => (acc, totalBytes, [])
  | line :: rest, acc, totalBytes =>
      let totalBytes2 := totalBytes + utf8Len line
      if pyWordCount line > maxWords then phaseA maxLines maxWords rest acc totalBytes2
      else
        let acc2 := acc ++ [line]
        if acc2.length = maxLines then (acc2, totalBytes2, rest)
        else phaseA maxLines maxWords rest acc2 totalBytes2

/-- Phase B of `shuffle_with_max_lines` (datasets.py lines 100-112):
consume the rest of the stream; for the `i`-th further line compute the
sampling probability from the running byte average and the caller's
`total_byte_size` estimate, draw `random.random()`, and on success evict
the oldest reservoir line (`popleft`) and append the new one.  Python's
float arithmetic is embedded as exact rationals; a division by zero (which
would raise `ZeroDivisionError` in Python) yields `0` here. -/
def phaseB (R : RngOps σ) (maxLines totalByteSize : Nat) :
    List String → List String → Nat → Nat → σ → List String × σ
  | [], res, _, _, s => (res, s)
  | line :: rest, res, totalBytes, i, s =>
      let i2 := i + 1
      let totalBytes2 := totalBytes + utf8Len line
      let avgBytesPerLine : ℚ := (totalBytes2 : ℚ) / ((maxLines : ℚ) + (i2 : ℚ))
      let estimatedLines : ℚ := (totalByteSize : ℚ) / avgBytesPerLine
      let p : ℚ := (maxLines : ℚ) / estimatedLines
      let rs := R.randFloat s
      if rs.1 < p then
        phaseB R maxLines totalByteSize rest (res.drop 1 ++ [line]) totalBytes2 i2 rs.2
      else
        phaseB R maxLines totalByteSize rest res totalBytes2 i2 rs.2

/-- `shuffle_with_max_lines(line_stream, seed, max_lines,
max_words_in_sentence, total_byte_size)` (datasets.py lines 55-118): fill
phase, first in-place shuffle, reservoir-sampling phase, final in-place
shuffle; returns the resulting line sequence. -/
def shuffle_with_max_lines (R : RngOps σ) (seed : String) (stream : List String)
    (maxLines maxWords totalByteSize : Nat) : List String :=
  let s0 := R.seedFn seed
  let a := phaseA maxLines maxWords stream [] 0
  let r1 := pyShuffle R s0 a.1
  let r2 := phaseB R maxLines totalByteSize a.2.2 r1.1 a.2.1 0 r1.2
  (pyShuffle R r2.2 r2.1).1

/-- Reservoir sizes observed after each line consumed in phase A: the
value of `len(lines)` at the end of each iteration of the first loop of
`shuffle_with_max_lines`. -/
def phaseATrace (maxLines maxWords : Nat) : List String → List String → List Nat
  | [], _ => []
  | line :: rest, acc =>
      if pyWordCount line > maxWords then acc.length :: phaseATrace maxLines maxWords rest acc
      else
        let acc2 := acc ++ [line]
        if acc2.length = maxLines then [acc2.length]
        else acc2.length :: phaseATrace maxLines maxWords rest acc2

/-- Reservoir sizes observed after each line consumed in phase B: the
value of `len(lines)` at the end of each iteration of the second loop of
`shuffle_with_max_lines`. -/
def phaseBTrace (R : RngOps σ) (maxLines totalByteSize : Nat) :
    List String → List String → Nat → Nat → σ → List Nat
  | [], _, _, _, _ => []
  | line :: rest, res, totalBytes, i, s =>
      let i2 := i + 1
      let totalBytes2 := totalBytes + utf8Len line
      let avgBytesPerLine : ℚ := (totalBytes2 : ℚ) / ((maxLines : ℚ) + (i2 : ℚ))
      let estimatedLines : ℚ := (totalByteSize : ℚ) / avgBytesPerLine
      let p : ℚ := (maxLines : ℚ) / estimatedLines
      let rs := R.randFloat s
      if rs.1 < p then
        (res.drop 1 ++ [line]).length ::
          phaseBTrace R maxLines totalByteSize rest (res.drop 1 ++ [line]) totalBytes2 i2 rs.2
      else
        res.length :: phaseBTrace R maxLines totalByteSize rest res totalBytes2 i2 rs.2

/-- The sequence of reservoir sizes (`len(lines)`) observed after every
line consumed from the stream over a whole run of
`shuffle_with_max_lines`: phase-A sizes followed by phase-B sizes. -/
def reservoirSizes (R : RngOps σ) (seed : String) (stream : List String)
    (maxLines maxWords totalByteSize : Nat) : List Nat :=
  let s0 := R.seedFn seed
  let a := phaseA maxLines maxWords stream [] 0
  let r1 := pyShuffle R s0 a.1
  phaseATrace maxLines maxWords stream [] ++
    phaseBTrace R maxLines totalByteSize a.2.2 r1.1 a.2.1 0 r1.2

/-- Stage 1 of `shuffle_in_temp_files` (datasets.py lines 167-185): write
the stream out to chunk files.  A chunk is its list of stored lines, each
stored as `line + "\n"`; `closedChunks` are the files already closed,
`cur` the currently open chunk, `bytesWritten` the running
`bytes_written_to_chunk` counter.  When `bytes_written_to_chunk +
line_bytes > chunk_bytes` the current chunk is closed (possibly empty)
and a fresh one is started.  Returns all chunk files in index order,
`chunk.0, chunk.1, ...`. -/
def writeChunks (chunkBytes : ℤ) : List String → List (List String) → List String → ℤ → List (List String)
  | [], closedChunks, cur, _ => closedChunks ++ [cur]
  | line :: rest, closedChunks, cur, bytesWritten =>
      let lineBytes : ℤ := (utf8Len line : ℤ) + 1
      if bytesWritten + lineBytes > chunkBytes then
        writeChunks chunkBytes rest (closedChunks ++ [cur]) [line ++ "\n"] lineBytes
      else
        writeChunks chunkBytes rest closedChunks (cur ++ [line ++ "\n"]) (bytesWritten + lineBytes)

/-- The mutable state of stage 3 of `shuffle_in_temp_files`: the current
in-memory `bucket`, its running byte total `bytes_in_bucket`, the
`bucket_count` counter, the buckets already shuffled and written to the
output sink (in write order, post-shuffle), and the generator state. -/
structure BucketState (σ : Type) where
  bucket : List String
  bytesInBucket : ℤ
  bucketCount : Nat
  flushed : List (List String)
  rng : σ

/-- The inner loop of stage 3 (datasets.py lines 203-216): append each
chunk line to the bucket, adding its byte length; when
`bytes_in_bucket > bucket_bytes`, shuffle the bucket, write it to the
output sink, reset the bucket and bump `bucket_count`. -/
def processLines (R : RngOps σ) (bucketBytes : ℤ) : List String → BucketState σ → BucketState σ
  | [], st => st
  | line :: rest, st =>
      let bucket2 := st.bucket ++ [line]
      let bytes2 := st.bytesInBucket + (utf8Len line : ℤ)
      if bytes2 > bucketBytes then
        let sh := pyShuffle R st.rng bucket2
        processLines R bucketBytes rest
          ⟨[], 0, st.bucketCount + 1, st.flushed ++ [sh.1], sh.2⟩
      else
        processLines R bucketBytes rest ⟨bucket2, bytes2, st.bucketCount, st.flushed, st.rng⟩

/-- The outer loop of stage 3 (datasets.py lines 198-219): visit the
chunks in the shuffled index order, feeding each chunk's lines through
the bucket. -/
def processChunks (R : RngOps σ) (bucketBytes : ℤ) (chunks : List (List String)) :
    List Nat → BucketState σ → BucketState σ
  | [], st => st
  | idx :: rest, st =>
      processChunks R bucketBytes chunks rest (processLines R bucketBytes (chunks.getD idx []) st)

/-- The per-chunk `os.remove(chunk_name)` calls (datasets.py lines
218-219): starting from the set of chunk files on disk, each visited
index is deleted unless `keep_chunks` is set. -/
def removeChunks (keepChunks : Bool) : List Nat → List Nat → List Nat
  | [], files => files
  | idx :: rest, files =>
      removeChunks keepChunks rest (if keepChunks then files else files.filter (· ≠ idx))

/-- Everything observable about one run of `shuffle_in_temp_files`: the
chunk files created in stage 1, the overflow-flushed buckets and the
final bucket flush as written to the output sink, the full output-sink
content, the final `bucket_count`, the message printed at the end, the
value the Python function returns (`None`: it has no return statement),
and the chunk files still on disk afterwards. -/
structure TempFilesRun where
  chunks : List (List String)
  flushed : List (List String)
  finalFlush : List String
  output : List String
  bucketCount : Nat
  printed : String
  returned : Option Nat
  remaining : List Nat
  deriving DecidableEq

/-- `shuffle_in_temp_files(line_stream, output, seed, chunk_bytes,
bucket_bytes, chunk_dir, keep_chunks)` (datasets.py lines 121-226):
stage 1 writes the chunks, stage 2 shuffles the chunk indexes, stage 3
streams the chunks in that order through the bounded bucket, flushing
each overflowing bucket (shuffled) to the output sink, deleting consumed
chunk files unless `keep_chunks`, and finally flushing the non-empty
remainder bucket.  The function prints the bucket count and returns
`None`. -/
def shuffle_in_temp_files (R : RngOps σ) (seed : String) (stream : List String)
    (chunkBytes bucketBytes : ℤ) (keepChunks : Bool) : TempFilesRun :=
  let s0 := R.seedFn seed
  let chunks := writeChunks chunkBytes stream [] [] 0
  let chunkCount := chunks.length
  let sh := pyShuffle R s0 (List.range chunkCount)
  let shuffledChunkIndexes := sh.1
  let st := processChunks R bucketBytes chunks shuffledChunkIndexes
    ⟨[], 0, 0, [], sh.2⟩
  let remaining := removeChunks keepChunks shuffledChunkIndexes (List.range chunkCount)
  let finalFlush := if st.bucket.length > 0 then (pyShuffle R st.rng st.bucket).1 else []
  { chunks := chunks
    flushed := st.flushed
    finalFlush := finalFlush
    output := st.flushed.flatten ++ finalFlush
    bucketCount := st.bucketCount
    printed := "Shuffled with " ++ toString st.bucketCount ++ " buckets."
    returned := none
    remaining := remaining }

theorem utf8Len_append (s t : String) : utf8Len (s ++ t) = utf8Len s + utf8Len t := by
  simp [utf8Len]

theorem byteSize_append (c : List String) (x : String) :
    byteSize (c ++ [x]) = byteSize c + utf8Len x := by
  simp [byteSize]

theorem byteSize_perm {c d : List String} (h : List.Perm c d) : byteSize c = byteSize d :=
  (h.map utf8Len).sum_eq

theorem cons_set_perm (t : List α) (j : Nat) (a : α) (hj : j < t.length) :
    List.Perm (t[j] :: t.set j a) (a :: t) := by
  induction t generalizing j with
  | nil => simp at hj
  | cons b t' ih =>
      cases j with
      | zero => simpa using List.Perm.swap a b t'
      | succ j' =>
          have hj' : j' < t'.length := by simpa using hj
          have h1 : List.Perm (t'[j'] :: b :: t'.set j' a) (b :: t'[j'] :: t'.set j' a) :=
            List.Perm.swap _ _ _
          have h2 : List.Perm (b :: t'[j'] :: t'.set j' a) (b :: a :: t') :=
            List.Perm.cons b (ih j' hj')
          have h3 : List.Perm (b :: a :: t') (a :: b :: t') := List.Perm.swap _ _ _
          simpa using h1.trans (h2.trans h3)

theorem set_set_perm (l : List α) (i j : Nat) (hi : i < l.length) (hj : j < l.length) :
    List.Perm ((l.set i l[j]).set j l[i]) l := by
  induction l generalizing i j with
  | nil => simp at hi
  | cons x t ih =>
      cases i with
      | zero =>
          cases j with
          | zero => simp
          | succ j' =>
              have hj' : j' < t.length := by simpa using hj
              simpa using cons_set_perm t j' x hj'
      | succ i' =>
          have hi' : i' < t.length := by simpa using hi
          cases j with
          | zero =>
              simpa using cons_set_perm t i' x hi'
          | succ j' =>
              have hj' : j' < t.length := by simpa using hj
              simpa using List.Perm.cons x (ih i' j' hi' hj')

theorem listSwap_perm (l : List α) (i j : Nat) : List.Perm (listSwap l i j) l := by
  unfold listSwap
  cases hi : l[i]? with
  | none => exact List.Perm.refl l
  | some a =>
      cases hj : l[j]? with
      | none => exact List.Perm.refl l
      | some b =>
          obtain ⟨hi', ha⟩ := List.getElem?_eq_some.mp hi
          obtain ⟨hj', hb⟩ := List.getElem?_eq_some.mp hj
          rw [← ha, ← hb]
          exact set_set_perm l i j hi' hj'

theorem fyAux_perm (R : RngOps σ) (n : Nat) (l : List α) (s : σ) :
    List.Perm (fyAux R n l s).1 l := by
  induction n generalizing l s with
  | zero => exact List.Perm.refl l
  | succ i ih =>
      exact List.Perm.trans (ih _ _) (listSwap_perm l (i + 1) _)

theorem pyShuffle_perm (R : RngOps σ) (s : σ) (l : List α) :
    List.Perm (pyShuffle R s l).1 l :=
  fyAux_perm R (l.length - 1) l s

theorem pyShuffle_length (R : RngOps σ) (s : σ) (l : List α) :
    (pyShuffle R s l).1.length = l.length :=
  (pyShuffle_perm R s l).length_eq

theorem phaseA_subperm (ml mw : Nat) (stream : List String) :
    ∀ (acc : List String) (tb : Nat),
      List.Subperm ((phaseA ml mw stream acc tb).1 ++ (phaseA ml mw stream acc tb).2.2)
        (acc ++ stream) := by
  induction stream with
  | nil => intro acc tb; simp only [phaseA]; simpa using List.Subperm.refl acc
  | cons line rest ih =>
      intro acc tb
      by_cases hw : pyWordCount line > mw
      · have h1 := ih acc (tb + utf8Len line)
        have h2 : List.Sublist (acc ++ rest) (acc ++ line :: rest) :=
          List.Sublist.append_left (List.sublist_cons_self line rest) acc
        simpa [phaseA, hw] using h1.trans h2.subperm
      · by_cases hb : acc.length + 1 = ml
        · simp only [phaseA, hw, hb, if_neg, ite_false, if_pos, ite_true, if_true]
          simpa [phaseA, hw, hb] using List.Subperm.refl (acc ++ line :: rest)
        · have h1 := ih (acc ++ [line]) (tb + utf8Len line)
          simpa [phaseA, hw, hb] using h1

theorem phaseB_subperm (R : RngOps σ) (ml tbs : Nat) (rest : List String) :
    ∀ (res : List String) (tb i : Nat) (s : σ),
      List.Subperm (phaseB R ml tbs rest res tb i s).1 (res ++ rest) := by
  induction rest with
  | nil => intro res tb i s; simp only [phaseB]; simpa using List.Subperm.refl res
  | cons line rest2 ih =>
      intro res tb i s
      simp only [phaseB]
      split
      · have h1 := ih (res.drop 1 ++ [line]) (tb + utf8Len line) (i + 1) (R.randFloat s).2
        have h2 : List.Sublist ((res.drop 1 ++ [line]) ++ rest2) (res ++ line :: rest2) := by
          have h3 : List.Sublist (res.drop 1) res := List.drop_sublist 1 res
          simpa using (h3.append_right (line :: rest2))
        exact h1.trans h2.subperm
      · have h1 := ih res (tb + utf8Len line) (i + 1) (R.randFloat s).2
        have h2 : List.Sublist (res ++ rest2) (res ++ line :: rest2) :=
          List.Sublist.append_left (List.sublist_cons_self line rest2) res
        exact h1.trans h2.subperm

theorem phaseA_all_valid (ml mw : Nat) (stream : List String) :
    ∀ (acc : List String) (tb : Nat), (∀ l ∈ stream, pyWordCount l ≤ mw) →
      acc.length + stream.length ≤ ml →
      (phaseA ml mw stream acc tb).1 = acc ++ stream ∧
        (phaseA ml mw stream acc tb).2.2 = [] := by
  induction stream with
  | nil => intro acc tb _ _; simp [phaseA]
  | cons line rest ih =>
      intro acc tb hv hlen
      have hw : ¬ pyWordCount line > mw := Nat.not_lt.mpr (hv line (by simp))
      by_cases hb : acc.length + 1 = ml
      · have hrest : rest = [] := by
          have h2 : acc.length + (rest.length + 1) ≤ ml := by simpa using hlen
          have : rest.length = 0 := by omega
          exact List.length_eq_zero.mp this
        subst hrest
        simp [phaseA, hw, hb]
      · have h1 := ih (acc ++ [line]) (tb + utf8Len line)
          (fun l hl => hv l (by simp [hl]))
          (by simp at hlen ⊢; omega)
        simpa [phaseA, hw, hb] using h1

theorem phaseA_word_bound (ml mw : Nat) (stream : List String) :
    ∀ (acc : List String) (tb : Nat), (∀ l ∈ acc, pyWordCount l ≤ mw) →
      ∀ l ∈ (phaseA ml mw stream acc tb).1, pyWordCount l ≤ mw := by
  induction stream with
  | nil => intro acc tb hacc; simpa [phaseA] using hacc
  | cons line rest ih =>
      intro acc tb hacc
      by_cases hw : pyWordCount line > mw
      · simpa [phaseA, hw] using ih acc (tb + utf8Len line) hacc
      · have hline : pyWordCount line ≤ mw := Nat.not_lt.mp hw
        have hacc2 : ∀ l ∈ acc ++ [line], pyWordCount l ≤ mw := by
          intro l hl
          rcases List.mem_append.mp hl with h | h
          · exact hacc l h
          · simp at h; subst h; exact hline
        by_cases hb : acc.length + 1 = ml
        · simpa [phaseA, hw, hb] using hacc2
        · simpa [phaseA, hw, hb] using ih (acc ++ [line]) (tb + utf8Len line) hacc2

theorem phaseA_zero (mw : Nat) (stream : List String) :
    ∀ (acc : List String) (tb : Nat),
      (phaseA 0 mw stream acc tb).1 = acc ++ stream.filter (fun l => pyWordCount l ≤ mw) ∧
        (phaseA 0 mw stream acc tb).2.2 = [] := by
  induction stream with
  | nil => intro acc tb; simp [phaseA]
  | cons line rest ih =>
      intro acc tb
      by_cases hw : pyWordCount line > mw
      · have hnot : ¬ (decide (pyWordCount line ≤ mw) = true) := by
          simp; omega
        simpa [phaseA, hw, List.filter_cons, hnot] using ih acc (tb + utf8Len line)
      · have hb : ¬ ((acc ++ [line]).length = 0) := by simp
        have hline : pyWordCount line ≤ mw := Nat.not_lt.mp hw
        have h1 := ih (acc ++ [line]) (tb + utf8Len line)
        simpa [phaseA, hw, hb, List.filter_cons, hline] using h1

theorem phaseA_length_le (ml mw : Nat) (stream : List String) :
    ∀ (acc : List String) (tb : Nat), acc.length < ml →
      (phaseA ml mw stream acc tb).1.length ≤ ml := by
  induction stream with
  | nil => intro acc tb h; simpa [phaseA] using Nat.le_of_lt h
  | cons line rest ih =>
      intro acc tb h
      by_cases hw : pyWordCount line > mw
      · simpa [phaseA, hw] using ih acc (tb + utf8Len line) h
      · by_cases hb : acc.length + 1 = ml
        · simp [phaseA, hw, hb]
        · have h2 : (acc ++ [line]).length < ml := by
            simp; omega
          simpa [phaseA, hw, hb] using ih (acc ++ [line]) (tb + utf8Len line) h2

theorem phaseATrace_bound (ml mw : Nat) (stream : List String) :
    ∀ (acc : List String), acc.length < ml →
      ∀ n ∈ phaseATrace ml mw stream acc, n ≤ ml := by
  induction stream with
  | nil => intro acc _; simp [phaseATrace]
  | cons line rest ih =>
      intro acc h n hn
      by_cases hw : pyWordCount line > mw
      · simp only [phaseATrace, hw, if_pos] at hn
        rcases List.mem_cons.mp hn with h1 | h1
        · omega
        · exact ih acc h n h1
      · by_cases hb : acc.length + 1 = ml
        · simp [phaseATrace, hw, hb] at hn
          omega
        · simp [phaseATrace, hw, hb] at hn
          rcases hn with h1 | h1
          · omega
          · have h2 : (acc ++ [line]).length < ml := by simp; omega
            exact ih (acc ++ [line]) h2 n h1

theorem phaseBTrace_bound (R : RngOps σ) (ml tbs : Nat) (hml : 0 < ml) (rest : List String) :
    ∀ (res : List String) (tb i : Nat) (s : σ), res.length ≤ ml →
      ∀ n ∈ phaseBTrace R ml tbs rest res tb i s, n ≤ ml := by
  induction rest with
  | nil => intro res tb i s _; simp [phaseBTrace]
  | cons line rest2 ih =>
      intro res tb i s h n hn
      simp only [phaseBTrace] at hn
      split at hn
      · have hlen : (res.drop 1 ++ [line]).length ≤ ml := by
          cases res with
          | nil => simpa using hml
          | cons x t => simp at h ⊢; omega
        rcases List.mem_cons.mp hn with h1 | h1
        · omega
        · exact ih (res.drop 1 ++ [line]) (tb + utf8Len line) (i + 1) _ hlen n h1
      · rcases List.mem_cons.mp hn with h1 | h1
        · omega
        · exact ih res (tb + utf8Len line) (i + 1) _ h n h1

theorem utf8Len_stored (l : String) : utf8Len (l ++ "\n") = utf8Len l + 1 := by
  rw [utf8Len_append]; rfl

theorem writeChunks_flatten (cb : ℤ) (stream : List String) :
    ∀ (closed : List (List String)) (cur : List String) (bw : ℤ),
      (writeChunks cb stream closed cur bw).flatten =
        closed.flatten ++ cur ++ stream.map (fun l => l ++ "\n") := by
  induction stream with
  | nil => intro closed cur bw; simp [writeChunks]
  | cons line rest ih =>
      intro closed cur bw
      simp only [writeChunks]
      split
      · rw [ih]; simp [List.flatten_append, List.append_assoc]
      · rw [ih]; simp [List.append_assoc]

theorem range_map_getD (l : List (List String)) :
    (List.range l.length).map (fun i => l.getD i []) = l := by
  induction l with
  | nil => simp
  | cons x t ih =>
      rw [List.length_cons, List.range_succ_eq_map]
      simp only [List.map_cons, List.getD_cons_zero, List.map_map]
      have h : ((fun i => (x :: t).getD i []) ∘ Nat.succ) = fun i => t.getD i [] := by
        funext i
        simp [Function.comp, List.getD_cons_succ]
      rw [h, ih]

theorem perm_flatten_getD (chunks : List (List String)) (idxs : List Nat)
    (h : List.Perm idxs (List.range chunks.length)) :
    List.Perm ((idxs.map (fun i => chunks.getD i [])).flatten) chunks.flatten := by
  have h1 := (h.map (fun i => chunks.getD i [])).flatten
  rw [range_map_getD] at h1
  exact h1

theorem processLines_conserve (R : RngOps σ) (bb : ℤ) (lines : List String) :
    ∀ st : BucketState σ,
      List.Perm
        ((processLines R bb lines st).flushed.flatten ++ (processLines R bb lines st).bucket)
        (st.flushed.flatten ++ st.bucket ++ lines) := by
  induction lines with
  | nil => intro st; simp [processLines]
  | cons line rest ih =>
      intro st
      simp only [processLines]
      split
      · refine (ih _).trans ?_
        simp only [List.flatten_append, List.flatten_cons, List.flatten_nil, List.append_nil]
        have h2 : List.Perm (pyShuffle R st.rng (st.bucket ++ [line])).1 (st.bucket ++ [line]) :=
          pyShuffle_perm R st.rng (st.bucket ++ [line])
        have h3 := (List.Perm.append (List.Perm.refl st.flushed.flatten) h2).append
          (List.Perm.refl rest)
        refine List.Perm.trans (by simpa [List.append_assoc] using h3) ?_
        simp [List.append_assoc]
      · refine (ih _).trans ?_
        simp [List.append_assoc]

theorem processChunks_conserve (R : RngOps σ) (bb : ℤ) (chunks : List (List String))
    (idxs : List Nat) :
    ∀ st : BucketState σ,
      List.Perm
        ((processChunks R bb chunks idxs st).flushed.flatten ++
          (processChunks R bb chunks idxs st).bucket)
        (st.flushed.flatten ++ st.bucket ++ (idxs.map (fun i => chunks.getD i [])).flatten) := by
  induction idxs with
  | nil => intro st; simp [processChunks]
  | cons idx rest ih =>
      intro st
      simp only [processChunks]
      refine (ih _).trans ?_
      have h1 := (processLines_conserve R bb (chunks.getD idx []) st).append
        (List.Perm.refl ((rest.map (fun i => chunks.getD i [])).flatten))
      refine List.Perm.trans (by simpa [List.append_assoc] using h1) ?_
      simp [List.append_assoc]

theorem processLines_count (R : RngOps σ) (bb : ℤ) (lines : List String) :
    ∀ st : BucketState σ, st.bucketCount = st.flushed.length →
      (processLines R bb lines st).bucketCount = (processLines R bb lines st).flushed.length := by
  induction lines with
  | nil => intro st h; simpa [processLines] using h
  | cons line rest ih =>
      intro st h
      simp only [processLines]
      split
      · exact ih _ (by simp [h])
      · exact ih _ (by simp [h])

theorem processChunks_count (R : RngOps σ) (bb : ℤ) (chunks : List (List String))
    (idxs : List Nat) :
    ∀ st : BucketState σ, st.bucketCount = st.flushed.length →
      (processChunks R bb chunks idxs st).bucketCount =
        (processChunks R bb chunks idxs st).flushed.length := by
  induction idxs with
  | nil => intro st h; simpa [processChunks] using h
  | cons idx rest ih =>
      intro st h
      simp only [processChunks]
      exact ih _ (processLines_count R bb (chunks.getD idx []) st h)

/-- A chunk file respects the budget: its byte size is at most
`chunk_bytes`, or it consists of a single stored line whose size alone
exceeds the budget. -/
def goodChunk (cb : ℤ) (c : List String) : Prop :=
  (byteSize c : ℤ) ≤ cb ∨ ∃ l, c = [l] ∧ cb < (utf8Len l : ℤ)

theorem writeChunks_budget (cb : ℤ) (stream : List String) :
    ∀ (closed : List (List String)) (cur : List String) (bw : ℤ),
      (∀ c ∈ closed, goodChunk cb c) → bw = (byteSize cur : ℤ) → goodChunk cb cur →
      ∀ c ∈ writeChunks cb stream closed cur bw, goodChunk cb c := by
  induction stream with
  | nil =>
      intro closed cur bw hclosed _ hcur c hc
      simp only [writeChunks] at hc
      rcases List.mem_append.mp hc with h | h
      · exact hclosed c h
      · simp at h; subst h; exact hcur
  | cons line rest ih =>
      intro closed cur bw hclosed hbw hcur c hc
      simp only [writeChunks] at hc
      split at hc
      · refine ih (closed ++ [cur]) [line ++ "\n"] _ ?_ ?_ ?_ c hc
        · intro d hd
          rcases List.mem_append.mp hd with h | h
          · exact hclosed d h
          · simp at h; subst h; exact hcur
        · simp [byteSize, utf8Len_stored]
        · by_cases hsz : ((utf8Len line : ℤ) + 1) ≤ cb
          · left
            simpa [byteSize, utf8Len_stored] using hsz
          · right
            refine ⟨line ++ "\n", rfl, ?_⟩
            rw [utf8Len_stored]
            push_cast
            omega
      · rename_i hle
        refine ih closed (cur ++ [line ++ "\n"]) _ hclosed ?_ ?_ c hc
        · rw [byteSize_append, utf8Len_stored, hbw]
          push_cast
          ring
        · left
          have hle2 : bw + ((utf8Len line : ℤ) + 1) ≤ cb := not_lt.mp hle
          rw [hbw] at hle2
          rw [byteSize_append, utf8Len_stored]
          push_cast at hle2 ⊢
          omega

/-- An overflow-flushed bucket: its byte size exceeds `bucket_bytes`, but
only by the size of one of its lines (the one whose arrival triggered the
flush). -/
def goodBucket (bb : ℤ) (F : List String) : Prop :=
  bb < (byteSize F : ℤ) ∧ ∃ l ∈ F, (byteSize F : ℤ) - (utf8Len l : ℤ) ≤ bb

theorem processLines_budget (R : RngOps σ) (bb : ℤ) (hbb : 0 ≤ bb) (lines : List String) :
    ∀ st : BucketState σ,
      st.bytesInBucket = (byteSize st.bucket : ℤ) → st.bytesInBucket ≤ bb →
      (∀ F ∈ st.flushed, goodBucket bb F) →
      (processLines R bb lines st).bytesInBucket =
          (byteSize (processLines R bb lines st).bucket : ℤ) ∧
        (processLines R bb lines st).bytesInBucket ≤ bb ∧
        ∀ F ∈ (processLines R bb lines st).flushed, goodBucket bb F := by
  induction lines with
  | nil =>
      intro st h1 h2 h3
      simp only [processLines]
      exact ⟨h1, h2, h3⟩
  | cons line rest ih =>
      intro st h1 h2 h3
      simp only [processLines]
      split
      · rename_i hover
        refine ih _ (by simp [byteSize]) hbb ?_
        intro F hF
        simp only at hF
        rcases List.mem_append.mp hF with h | h
        · exact h3 F h
        · simp at h
          subst h
          have hperm := pyShuffle_perm R st.rng (st.bucket ++ [line])
          have hsz : (byteSize (pyShuffle R st.rng (st.bucket ++ [line])).1 : ℤ) =
              (byteSize st.bucket : ℤ) + (utf8Len line : ℤ) := by
            rw [byteSize_perm hperm, byteSize_append]
            push_cast
            ring
          simp only [goodBucket]
          constructor
          · rw [hsz, ← h1]; exact hover
          · exact ⟨line, hperm.mem_iff.mpr (by simp), by rw [hsz, ← h1]; omega⟩
      · rename_i hover
        refine ih _ ?_ (not_lt.mp hover) h3
        rw [byteSize_append, h1]
        push_cast
        ring

theorem processChunks_budget (R : RngOps σ) (bb : ℤ) (hbb : 0 ≤ bb)
    (chunks : List (List String)) (idxs : List Nat) :
    ∀ st : BucketState σ,
      st.bytesInBucket = (byteSize st.bucket : ℤ) → st.bytesInBucket ≤ bb →
      (∀ F ∈ st.flushed, goodBucket bb F) →
      (processChunks R bb chunks idxs st).bytesInBucket =
          (byteSize (processChunks R bb chunks idxs st).bucket : ℤ) ∧
        (processChunks R bb chunks idxs st).bytesInBucket ≤ bb ∧
        ∀ F ∈ (processChunks R bb chunks idxs st).flushed, goodBucket bb F := by
  induction idxs with
  | nil =>
      intro st h1 h2 h3
      simp only [processChunks]
      exact ⟨h1, h2, h3⟩
  | cons idx rest ih =>
      intro st h1 h2 h3
      simp only [processChunks]
      obtain ⟨g1, g2, g3⟩ := processLines_budget R bb hbb (chunks.getD idx []) st h1 h2 h3
      exact ih _ g1 g2 g3

theorem writeChunks_nonpos (cb : ℤ) (hcb : cb ≤ 0) (stream : List String) :
    ∀ (closed : List (List String)) (cur : List String) (bw : ℤ), 0 ≤ bw →
      writeChunks cb stream closed cur bw =
        (closed ++ [cur]) ++ stream.map (fun l => [l ++ "\n"]) := by
  induction stream with
  | nil => intro closed cur bw _; simp [writeChunks]
  | cons line rest ih =>
      intro closed cur bw hbw
      have hcond : bw + ((utf8Len line : ℤ) + 1) > cb := by
        have : (0 : ℤ) ≤ (utf8Len line : ℤ) := Int.natCast_nonneg _
        omega
      simp only [writeChunks, if_pos hcond]
      rw [ih (closed ++ [cur]) [line ++ "\n"] _ (by positivity)]
      simp [List.append_assoc]

theorem swml_subperm (R : RngOps σ) (seed : String) (stream : List String)
    (ml mw tbs : Nat) :
    List.Subperm (shuffle_with_max_lines R seed stream ml mw tbs) stream := by
  simp only [shuffle_with_max_lines]
  have h1 := pyShuffle_perm R
    (phaseB R ml tbs (phaseA ml mw stream [] 0).2.2
      (pyShuffle R (R.seedFn seed) (phaseA ml mw stream [] 0).1).1
      (phaseA ml mw stream [] 0).2.1 0
      (pyShuffle R (R.seedFn seed) (phaseA ml mw stream [] 0).1).2).2
    (phaseB R ml tbs (phaseA ml mw stream [] 0).2.2
      (pyShuffle R (R.seedFn seed) (phaseA ml mw stream [] 0).1).1
      (phaseA ml mw stream [] 0).2.1 0
      (pyShuffle R (R.seedFn seed) (phaseA ml mw stream [] 0).1).2).1
  have h2 := phaseB_subperm R ml tbs (phaseA ml mw stream [] 0).2.2
    (pyShuffle R (R.seedFn seed) (phaseA ml mw stream [] 0).1).1
    (phaseA ml mw stream [] 0).2.1 0
    (pyShuffle R (R.seedFn seed) (phaseA ml mw stream [] 0).1).2
  have h3 : List.Perm
      ((pyShuffle R (R.seedFn seed) (phaseA ml mw stream [] 0).1).1 ++
        (phaseA ml mw stream [] 0).2.2)
      ((phaseA ml mw stream [] 0).1 ++ (phaseA ml mw stream [] 0).2.2) :=
    (pyShuffle_perm R (R.seedFn seed) (phaseA ml mw stream [] 0).1).append
      (List.Perm.refl _)
  have h4 := phaseA_subperm ml mw stream [] 0
  exact h1.subperm.trans (h2.trans (h3.subperm.trans (by simpa using h4)))

theorem swml_perm_of_all_valid (R : RngOps σ) (seed : String) (stream : List String)
    (ml mw tbs : Nat) (hv : ∀ l ∈ stream, pyWordCount l ≤ mw) (hlen : stream.length ≤ ml) :
    List.Perm (shuffle_with_max_lines R seed stream ml mw tbs) stream := by
  obtain ⟨e1, e2⟩ := phaseA_all_valid ml mw stream [] 0 hv (by simpa using hlen)
  simp only [shuffle_with_max_lines, e2, phaseB]
  refine (pyShuffle_perm _ _ _).trans ((pyShuffle_perm _ _ _).trans ?_)
  rw [e1]
  simp

theorem swml_zero_perm (R : RngOps σ) (seed : String) (stream : List String)
    (mw tbs : Nat) :
    List.Perm (shuffle_with_max_lines R seed stream 0 mw tbs)
      (stream.filter (fun l => pyWordCount l ≤ mw)) := by
  obtain ⟨e1, e2⟩ := phaseA_zero mw stream [] 0
  simp only [shuffle_with_max_lines, e2, phaseB]
  refine (pyShuffle_perm _ _ _).trans ((pyShuffle_perm _ _ _).trans ?_)
  rw [e1]
  simp

theorem swml_word_bound_of_fits (R : RngOps σ) (seed : String) (stream : List String)
    (ml mw tbs : Nat) (hrest : (phaseA ml mw stream [] 0).2.2 = []) :
    ∀ l ∈ shuffle_with_max_lines R seed stream ml mw tbs, pyWordCount l ≤ mw := by
  intro l hl
  simp only [shuffle_with_max_lines, hrest, phaseB] at hl
  have hmem : l ∈ (phaseA ml mw stream [] 0).1 :=
    ((pyShuffle_perm _ _ _).trans (pyShuffle_perm _ _ _)).mem_iff.mp hl
  exact phaseA_word_bound ml mw stream [] 0 (by simp) l hmem

theorem processOutput_perm (R : RngOps σ) (bb : ℤ) (chunks : List (List String))
    (idxs : List Nat) (s2 : σ) (hidx : List.Perm idxs (List.range chunks.length)) :
    List.Perm
      ((processChunks R bb chunks idxs ⟨[], 0, 0, [], s2⟩).flushed.flatten ++
        (if (processChunks R bb chunks idxs ⟨[], 0, 0, [], s2⟩).bucket.length > 0
          then (pyShuffle R (processChunks R bb chunks idxs ⟨[], 0, 0, [], s2⟩).rng
                 (processChunks R bb chunks idxs ⟨[], 0, 0, [], s2⟩).bucket).1
          else []))
      chunks.flatten := by
  have h1 : List.Perm
      ((processChunks R bb chunks idxs ⟨[], 0, 0, [], s2⟩).flushed.flatten ++
        (if (processChunks R bb chunks idxs ⟨[], 0, 0, [], s2⟩).bucket.length > 0
          then (pyShuffle R (processChunks R bb chunks idxs ⟨[], 0, 0, [], s2⟩).rng
                 (processChunks R bb chunks idxs ⟨[], 0, 0, [], s2⟩).bucket).1
          else []))
      ((processChunks R bb chunks idxs ⟨[], 0, 0, [], s2⟩).flushed.flatten ++
        (processChunks R bb chunks idxs ⟨[], 0, 0, [], s2⟩).bucket) := by
    by_cases hb : (processChunks R bb chunks idxs ⟨[], 0, 0, [], s2⟩).bucket.length > 0
    · rw [if_pos hb]
      exact (List.Perm.refl _).append (pyShuffle_perm _ _ _)
    · rw [if_neg hb]
      have hnil : (processChunks R bb chunks idxs ⟨[], 0, 0, [], s2⟩).bucket = [] :=
        List.length_eq_zero.mp (Nat.le_zero.mp (not_lt.mp hb))
      rw [hnil]
  have h2 := processChunks_conserve R bb chunks idxs ⟨[], 0, 0, [], s2⟩
  have h4 := perm_flatten_getD chunks idxs hidx
  exact h1.trans (h2.trans (by simpa using h4))

theorem sitf_output_perm (R : RngOps σ) (seed : String) (stream : List String)
    (cb bb : ℤ) (keep : Bool) :
    List.Perm (shuffle_in_temp_files R seed stream cb bb keep).output
      (stream.map (fun l => l ++ "\n")) := by
  simp only [shuffle_in_temp_files]
  refine (processOutput_perm R bb (writeChunks cb stream [] [] 0)
    (pyShuffle R (R.seedFn seed) (List.range (writeChunks cb stream [] [] 0).length)).1
    (pyShuffle R (R.seedFn seed) (List.range (writeChunks cb stream [] [] 0).length)).2
    (pyShuffle_perm _ _ _)).trans ?_
  rw [writeChunks_flatten]
  simp

/-- Claim C1: for every finite line stream, seed and configuration, two
independent invocations of the same algorithm (`shuffle_with_max_lines`
or `shuffle_in_temp_files`) on identical stream, seed and configuration
produce the identical output order.  The embedding makes randomness a
deterministic function of the seed, exactly as `random.Random(seed)`
does, so equal inputs give equal outputs. -/
theorem claim_c1_determinism (R : RngOps σ) (s₁ s₂ : List String) (k₁ k₂ : String)
    (ml mw tbs : Nat) (cb bb : ℤ) (keep : Bool) (hs : s₁ = s₂) (hk : k₁ = k₂) :
    shuffle_with_max_lines R k₁ s₁ ml mw tbs = shuffle_with_max_lines R k₂ s₂ ml mw tbs ∧
      shuffle_in_temp_files R k₁ s₁ cb bb keep = shuffle_in_temp_files R k₂ s₂ cb bb keep := by
  subst hs
  subst hk
  exact ⟨rfl, rfl⟩

/-- Witness for C1 at a concrete stream, seed and configuration. -/
theorem claim_c1_determinism_witness :
    shuffle_with_max_lines zeroRng "x" ["a", "b"] 2 10 2 =
        shuffle_with_max_lines zeroRng "x" ["a", "b"] 2 10 2 ∧
      shuffle_in_temp_files zeroRng "x" ["a", "b"] 100 100 false =
        shuffle_in_temp_files zeroRng "x" ["a", "b"] 100 100 false :=
  claim_c1_determinism zeroRng ["a", "b"] ["a", "b"] "x" "x" 2 10 2 100 100 false rfl rfl

/-- Claim C2 counterexample: with `max_lines = 1` and the two-line stream
`["a", "b"]` (no line dropped by the word filter), `shuffle_with_max_lines`
returns the single line `["b"]`, which is not a permutation of the two
non-dropped input lines — phase B evicted `"a"` for good. -/
theorem claim_c2_counterexample :
    shuffle_with_max_lines zeroRng "x" ["a", "b"] 1 10 1 = ["b"] ∧
      ¬ List.Perm (shuffle_with_max_lines zeroRng "x" ["a", "b"] 1 10 1)
          (["a", "b"].filter (fun l => pyWordCount l ≤ 10)) := by
  have hA : phaseA 1 10 ["a", "b"] [] 0 = (["a"], 1, ["b"]) := by decide
  have hB : phaseB zeroRng 1 1 ["b"] ["a"] 1 0 () = (["b"], ()) := by
    simp only [phaseB]
    norm_num [zeroRng, show utf8Len "b" = 1 from by decide]
  have hS1 : pyShuffle zeroRng (zeroRng.seedFn "x") ["a"] = (["a"], ()) := by decide
  have h : shuffle_with_max_lines zeroRng "x" ["a", "b"] 1 10 1 = ["b"] := by
    simp only [shuffle_with_max_lines, hA, hS1, hB]
    decide
  refine ⟨h, ?_⟩
  rw [h]
  decide

/-- Claim C2, amended: the lines written by `shuffle_in_temp_files` are a
permutation of the input lines (with their terminators); the sequence
returned by `shuffle_with_max_lines` is in general only a permutation of
a sub-multiset of the input lines — it is a permutation of the full
input exactly when phase B consumes nothing, e.g. whenever no line
exceeds the word limit and the stream has at most `max_lines` lines. -/
theorem claim_c2_permutation :
    (∀ (σ : Type) (R : RngOps σ) (seed : String) (stream : List String) (cb bb : ℤ)
        (keep : Bool),
        List.Perm (shuffle_in_temp_files R seed stream cb bb keep).output
          (stream.map (fun l => l ++ "\n"))) ∧
      (∀ (σ : Type) (R : RngOps σ) (seed : String) (stream : List String) (ml mw tbs : Nat),
        List.Subperm (shuffle_with_max_lines R seed stream ml mw tbs) stream ∧
          ((∀ l ∈ stream, pyWordCount l ≤ mw) → stream.length ≤ ml →
            List.Perm (shuffle_with_max_lines R seed stream ml mw tbs) stream)) :=
  ⟨fun _ R seed stream cb bb keep => sitf_output_perm R seed stream cb bb keep,
   fun _ R seed stream ml mw tbs =>
     ⟨swml_subperm R seed stream ml mw tbs,
      fun hv hlen => swml_perm_of_all_valid R seed stream ml mw tbs hv hlen⟩⟩

/-- Witness for C2 (amended) at concrete inputs: a full two-line
permutation through `shuffle_in_temp_files`, and a full permutation
through `shuffle_with_max_lines` when the stream fits the reservoir. -/
theorem claim_c2_permutation_witness :
    List.Perm (shuffle_in_temp_files zeroRng "s" ["a", "b"] 100 100 false).output
        (["a", "b"].map (fun l => l ++ "\n")) ∧
      List.Perm (shuffle_with_max_lines zeroRng "x" ["a", "b"] 2 10 6) ["a", "b"] :=
  ⟨claim_c2_permutation.1 Unit zeroRng "s" ["a", "b"] 100 100 false,
   (claim_c2_permutation.2 Unit zeroRng "x" ["a", "b"] 2 10 6).2 (by decide) (by decide)⟩

/-- Claim C3 counterexample: the word-count filter is applied only in the
fill phase.  With `max_lines = 1`, `max_words_in_sentence = 1` and stream
`["a", "b c"]`, the two-word line `"b c"` arrives during phase B, is
sampled into the reservoir unfiltered, and is returned. -/
theorem claim_c3_counterexample :
    shuffle_with_max_lines zeroRng "x" ["a", "b c"] 1 1 1 = ["b c"] ∧
      pyWordCount "b c" = 2 := by
  have hA : phaseA 1 1 ["a", "b c"] [] 0 = (["a"], 1, ["b c"]) := by decide
  have hB : phaseB zeroRng 1 1 ["b c"] ["a"] 1 0 () = (["b c"], ()) := by
    simp only [phaseB]
    norm_num [zeroRng, show utf8Len "b c" = 3 from by decide]
  have hS1 : pyShuffle zeroRng (zeroRng.seedFn "x") ["a"] = (["a"], ()) := by decide
  constructor
  · simp only [shuffle_with_max_lines, hA, hS1, hB]
    decide
  · decide

/-- Claim C3, amended: over-long lines are filtered only during the fill
phase — every line in the phase-A reservoir satisfies the word bound, and
when the stream is exhausted during phase A (phase B consumes nothing) no
over-long line appears in the returned sequence; lines consumed during
phase B bypass the filter. -/
theorem claim_c3_word_filter :
    ∀ (σ : Type) (R : RngOps σ) (seed : String) (stream : List String) (ml mw tbs : Nat),
      (∀ l ∈ (phaseA ml mw stream [] 0).1, pyWordCount l ≤ mw) ∧
        ((phaseA ml mw stream [] 0).2.2 = [] →
          ∀ l ∈ shuffle_with_max_lines R seed stream ml mw tbs, pyWordCount l ≤ mw) :=
  fun _ R seed stream ml mw tbs =>
    ⟨phaseA_word_bound ml mw stream [] 0 (by simp),
     fun hrest => swml_word_bound_of_fits R seed stream ml mw tbs hrest⟩

/-- Witness for C3 (amended): on the stream `["a", "b c d"]` with word
limit 1, the over-long line is dropped in phase A and the surviving
output line `"a"` satisfies the bound. -/
theorem claim_c3_word_filter_witness : pyWordCount "a" ≤ 1 :=
  (claim_c3_word_filter Unit zeroRng "x" ["a", "b c d"] 5 1 9).2 (by decide) "a" (by decide)

/-- Claim C4 counterexample: with `max_lines = 0` the `len(lines) ==
max_lines` break never fires, so on the one-line stream `["a"]` the
reservoir grows to 1 element, exceeding `max_lines = 0`. -/
theorem claim_c4_counterexample : reservoirSizes zeroRng "x" ["a"] 0 10 1 = [1] := by
  decide

/-- Claim C4, amended: for `max_lines ≥ 1`, at every point during the
consumption of the stream the reservoir holds at most `max_lines` lines,
independent of the stream length; the bound fails for `max_lines = 0`. -/
theorem claim_c4_memory_bound :
    ∀ (σ : Type) (R : RngOps σ) (seed : String) (stream : List String) (ml mw tbs : Nat),
      0 < ml → ∀ n ∈ reservoirSizes R seed stream ml mw tbs, n ≤ ml := by
  intro σ R seed stream ml mw tbs hml n hn
  simp only [reservoirSizes] at hn
  rcases List.mem_append.mp hn with h | h
  · exact phaseATrace_bound ml mw stream [] (by simpa using hml) n h
  · refine phaseBTrace_bound R ml tbs hml _ _ _ _ _ ?_ n h
    rw [pyShuffle_length]
    exact phaseA_length_le ml mw stream [] 0 (by simpa using hml)

/-- Witness for C4 (amended) at `max_lines = 1` on a one-line stream. -/
theorem claim_c4_memory_bound_witness : 0 < 1 ∧ (1 : Nat) ≤ 1 :=
  ⟨by decide, claim_c4_memory_bound Unit zeroRng "x" ["a"] 1 10 1 (by decide) 1 (by decide)⟩

/-- Claim C5 counterexample: with `max_lines = 0` the result is not
empty — on the stream `["a"]` the reservoir accepts the line (the break
condition `len(lines) == 0` is never reached after an append) and the
function returns `["a"]`. -/
theorem claim_c5_counterexample : shuffle_with_max_lines zeroRng "x" ["a"] 0 10 1 = ["a"] := by
  decide

/-- Claim C5, amended: with `max_lines = 0` the fill phase never breaks,
so `shuffle_with_max_lines` consumes the whole stream into the reservoir
and returns a permutation of every line that passes the word-count
filter — the result is empty only when no line passes the filter. -/
theorem claim_c5_zero_max_lines :
    ∀ (σ : Type) (R : RngOps σ) (seed : String) (stream : List String) (mw tbs : Nat),
      List.Perm (shuffle_with_max_lines R seed stream 0 mw tbs)
        (stream.filter (fun l => pyWordCount l ≤ mw)) :=
  fun _ R seed stream mw tbs => swml_zero_perm R seed stream mw tbs

/-- Claim C6: with a non-negative chunk budget (the spec classes negative
budgets as malformed configuration), every chunk file written by
`shuffle_in_temp_files` either has byte size at most `chunk_bytes`, or
consists of a single stored line whose size alone exceeds the budget. -/
theorem claim_c6_chunk_budget :
    ∀ (σ : Type) (R : RngOps σ) (seed : String) (stream : List String) (cb bb : ℤ)
      (keep : Bool), 0 ≤ cb →
      ∀ c ∈ (shuffle_in_temp_files R seed stream cb bb keep).chunks,
        (byteSize c : ℤ) ≤ cb ∨ ∃ l, c = [l] ∧ cb < (utf8Len l : ℤ) := by
  intro σ R seed stream cb bb keep hcb c hc
  have hc2 : c ∈ writeChunks cb stream [] [] 0 := by
    simpa [shuffle_in_temp_files] using hc
  have h := writeChunks_budget cb stream [] [] 0 (by simp) (by simp [byteSize])
    (by left; simpa [byteSize] using hcb) c hc2
  simpa [goodChunk] using h

/-- Witness for C6 on a concrete two-line run with `chunk_bytes = 10`. -/
theorem claim_c6_chunk_budget_witness :
    (0 : ℤ) ≤ 10 ∧
      ((byteSize ["aaaa\n", "bbbb\n"] : ℤ) ≤ 10 ∨
        ∃ l, ["aaaa\n", "bbbb\n"] = [l] ∧ (10 : ℤ) < (utf8Len l : ℤ)) :=
  ⟨by decide, claim_c6_chunk_budget Unit zeroRng "s" ["aaaa", "bbbb"] 10 100 false (by decide)
    ["aaaa\n", "bbbb\n"] (by decide)⟩

/-- Claim C7 counterexample: buckets are flushed after they exceed the
budget, so a flushed bucket is strictly larger than `bucket_bytes` even
when no single line is oversized: three 5-byte stored lines against
`bucket_bytes = 10` flush as one 15-byte bucket whose lines are all well
under the budget. -/
theorem claim_c7_counterexample :
    (shuffle_in_temp_files zeroRng "s" ["aaaa", "bbbb", "cccc"] 100 10 false).flushed.map
        byteSize = [15] ∧
      (shuffle_in_temp_files zeroRng "s" ["aaaa", "bbbb", "cccc"] 100 10 false).flushed.map
        (List.map utf8Len) = [[5, 5, 5]] :=
  ⟨by decide, by decide⟩

/-- Claim C7, amended: with a non-negative bucket budget, every
overflow-flushed bucket exceeds `bucket_bytes`, but only by the size of
the single line whose arrival triggered the flush (removing one of its
lines brings it within budget); the final flush is within budget. -/
theorem claim_c7_bucket_budget :
    ∀ (σ : Type) (R : RngOps σ) (seed : String) (stream : List String) (cb bb : ℤ)
      (keep : Bool), 0 ≤ bb →
      (∀ F ∈ (shuffle_in_temp_files R seed stream cb bb keep).flushed,
        bb < (byteSize F : ℤ) ∧ ∃ l ∈ F, (byteSize F : ℤ) - (utf8Len l : ℤ) ≤ bb) ∧
        (byteSize (shuffle_in_temp_files R seed stream cb bb keep).finalFlush : ℤ) ≤ bb := by
  intro σ R seed stream cb bb keep hbb
  obtain ⟨g1, g2, g3⟩ := processChunks_budget R bb hbb (writeChunks cb stream [] [] 0)
    (pyShuffle R (R.seedFn seed) (List.range (writeChunks cb stream [] [] 0).length)).1
    ⟨[], 0, 0, [],
      (pyShuffle R (R.seedFn seed) (List.range (writeChunks cb stream [] [] 0).length)).2⟩
    (by simp [byteSize]) hbb (by simp)
  constructor
  · intro F hF
    have hF2 : F ∈ (processChunks R bb (writeChunks cb stream [] [] 0)
        (pyShuffle R (R.seedFn seed) (List.range (writeChunks cb stream [] [] 0).length)).1
        ⟨[], 0, 0, [],
          (pyShuffle R (R.seedFn seed)
            (List.range (writeChunks cb stream [] [] 0).length)).2⟩).flushed := by
      simpa [shuffle_in_temp_files] using hF
    simpa [goodBucket] using g3 F hF2
  · simp only [shuffle_in_temp_files]
    split
    · rw [byteSize_perm (pyShuffle_perm R _ _), ← g1]
      exact g2
    · simpa [byteSize] using hbb

/-- Witness for C7 (amended) on the three-line run: the overflow-flushed
bucket exceeds the budget of 10, and the final flush (empty here) is
within budget. -/
theorem claim_c7_bucket_budget_witness :
    (0 : ℤ) ≤ 10 ∧
      (10 : ℤ) < (byteSize ["bbbb\n", "cccc\n", "aaaa\n"] : ℤ) ∧
      (byteSize
          (shuffle_in_temp_files zeroRng "s" ["aaaa", "bbbb", "cccc"] 100 10
            false).finalFlush : ℤ) ≤ 10 :=
  ⟨by decide,
   ((claim_c7_bucket_budget Unit zeroRng "s" ["aaaa", "bbbb", "cccc"] 100 10 false
      (by decide)).1 ["bbbb\n", "cccc\n", "aaaa\n"] (by decide)).1,
   (claim_c7_bucket_budget Unit zeroRng "s" ["aaaa", "bbbb", "cccc"] 100 10 false
      (by decide)).2⟩

/-- Claim C8 counterexample: `shuffle_in_temp_files` has no return
statement — it returns `None` even on a run that wrote a bucket to the
output sink, and only prints the count. -/
theorem claim_c8_counterexample :
    (shuffle_in_temp_files zeroRng "s" ["a"] 100 100 false).returned = none ∧
      (shuffle_in_temp_files zeroRng "s" ["a"] 100 100 false).output = ["a\n"] :=
  ⟨rfl, by decide⟩

/-- Claim C8, amended: the function returns `None`; the bucket count is
only printed, and the printed `bucket_count` counts exactly the
overflow-flushed buckets — the final partial flush is not counted. -/
theorem claim_c8_return_value :
    ∀ (σ : Type) (R : RngOps σ) (seed : String) (stream : List String) (cb bb : ℤ)
      (keep : Bool),
      (shuffle_in_temp_files R seed stream cb bb keep).returned = none ∧
        (shuffle_in_temp_files R seed stream cb bb keep).printed =
          "Shuffled with " ++
            toString (shuffle_in_temp_files R seed stream cb bb keep).bucketCount ++
            " buckets." ∧
        (shuffle_in_temp_files R seed stream cb bb keep).bucketCount =
          (shuffle_in_temp_files R seed stream cb bb keep).flushed.length := by
  intro σ R seed stream cb bb keep
  refine ⟨rfl, rfl, ?_⟩
  simp only [shuffle_in_temp_files]
  exact processChunks_count R bb _ _ _ rfl

/-- Claim C9 counterexample: with the malformed budget `chunk_bytes = 0`
the function does not fail before consuming the stream — it consumes the
line `"a"`, stores it in its own chunk (after an initial empty chunk) and
writes it to the output sink. -/
theorem claim_c9_counterexample :
    (shuffle_in_temp_files zeroRng "s" ["a"] 0 10 false).output = ["a\n"] ∧
      (shuffle_in_temp_files zeroRng "s" ["a"] 0 10 false).chunks.length = 2 :=
  ⟨by decide, by decide⟩

/-- Claim C9, amended: `shuffle_in_temp_files` performs no configuration
validation at all.  With a zero or negative `chunk_bytes` it still
consumes the entire stream and completes: every line overflows the chunk
budget, so chunk 0 is left empty and each line occupies its own chunk,
and the full shuffled output is still written to the sink. -/
theorem claim_c9_no_validation :
    ∀ (σ : Type) (R : RngOps σ) (seed : String) (stream : List String) (cb bb : ℤ)
      (keep : Bool), cb ≤ 0 →
      (shuffle_in_temp_files R seed stream cb bb keep).chunks =
          [] :: stream.map (fun l => [l ++ "\n"]) ∧
        List.Perm (shuffle_in_temp_files R seed stream cb bb keep).output
          (stream.map (fun l => l ++ "\n")) := by
  intro σ R seed stream cb bb keep hcb
  constructor
  · simp only [shuffle_in_temp_files]
    rw [writeChunks_nonpos cb hcb stream [] [] 0 le_rfl]
    simp
  · exact sitf_output_perm R seed stream cb bb keep

/-- Witness for C9 (amended) at `chunk_bytes = 0` on a one-line stream. -/
theorem claim_c9_no_validation_witness :
    (0 : ℤ) ≤ 0 ∧
      (shuffle_in_temp_files zeroRng "s" ["a"] 0 10 false).chunks = [[], ["a\n"]] := by
  refine ⟨le_rfl, ?_⟩
  have h := (claim_c9_no_validation Unit zeroRng "s" ["a"] 0 10 false le_rfl).1
  simpa using h

/-- Claim C10: on an empty stream `shuffle_in_temp_files` still creates
exactly one chunk file (`chunk.0`, closed empty) during the chunking
stage, writes nothing to the output sink, counts zero buckets, and with
`keep_chunks = false` deletes the chunk file, leaving no chunk files
behind. -/
theorem claim_c10_empty_stream :
    ∀ (σ : Type) (R : RngOps σ) (seed : String) (cb bb : ℤ),
      shuffle_in_temp_files R seed [] cb bb false =
        { chunks := [[]], flushed := [], finalFlush := [], output := [],
          bucketCount := 0, printed := "Shuffled with 0 buckets.", returned := none,
          remaining := [] } :=
  fun _ R seed cb bb => by with_unfolding_all rfl
